import Mathlib

/-!
Shallow embedding of the data-processing client library: the condition
evaluator `evaluateRule`, the four operators `filterData`, `categorizeData`,
`aggregateData`, `findDuplicates` (from `src/client/dataProcessor.js`) and the
workflow orchestrator `workflow` with its `readFile`/`writeFile` dispatch
(from `src/client/index.js`).

Modelling choices:
* JavaScript numbers are modelled as exact rationals (`Q`: an integer pair
  with positive denominator for every value the embedded code constructs);
  binary floating-point rounding is outside the scope of the model, and `NaN`
  is the distinguished value `JSVal.nan` (also encoded as `none` where a
  partial numeric result is passed around).
* `undefined` — the result of reading a missing object property — is the
  distinguished value `JSVal.undef`.
* JavaScript objects are association lists preserving insertion order;
  property updates (`setField`) overwrite in place, new keys are appended,
  mirroring JS object key creation order.
-/

/-- Exact rational model of a JavaScript number: numerator `n` over
denominator `d`; all values built by the embedded code have `d > 0`. -/
structure Q where
  n : Int
  d : Int
deriving DecidableEq

def qofNat (k : Nat) : Q := ⟨k, 1⟩

def qadd (a b : Q) : Q := ⟨a.n * b.d + b.n * a.d, a.d * b.d⟩

def qmul (a b : Q) : Q := ⟨a.n * b.n, a.d * b.d⟩

def qdiv (a b : Q) : Q :=
  let nn := a.n * b.d
  let dd := a.d * b.n
  if dd < 0 then ⟨-nn, -dd⟩ else ⟨nn, dd⟩

def qlt (a b : Q) : Bool := a.n * b.d < b.n * a.d

def qle (a b : Q) : Bool := a.n * b.d ≤ b.n * a.d

def qeq (a b : Q) : Bool := a.n * b.d == b.n * a.d

def qmin (a b : Q) : Q := if qle a b then a else b

def qmax (a b : Q) : Q := if qle a b then b else a

/-- Floor of a `Q` with positive denominator, via flooring integer division. -/
def qfloor (a : Q) : Int := Int.fdiv a.n a.d

def digitChar (k : Nat) : Char := Char.ofNat ('0'.toNat + k)

/-- Decimal digits of `k`, most significant first; the fuel argument bounds
the recursion depth and `k + 1` always suffices. -/
def natDecAux : Nat → Nat → List Char
  | 0, _ => []
  | f+1, k => if k < 10 then [digitChar k] else natDecAux f (k / 10) ++ [digitChar (k % 10)]

def natDec (k : Nat) : String := ⟨natDecAux (k + 1) k⟩

def intDec (i : Int) : String := if i < 0 then "-" ++ natDec (-i).toNat else natDec i.toNat

def natOfDigits (cs : List Char) : Nat :=
  cs.foldl (fun a c => 10 * a + (c.toNat - '0'.toNat)) 0

/-- Fractional decimal digits of `rem / den`, up to `fuel` digits; stops when
the remainder reaches zero, so no trailing zeros are produced. -/
def fracDigits : Nat → Nat → Nat → List Char
  | 0, _, _ => []
  | f+1, rem, den =>
    if rem = 0 then []
    else digitChar (rem * 10 / den) :: fracDigits f (rem * 10 % den) den

/-- JS number-to-string coercion on the rational model.  Exact for integral
values (the only numbers the verified claims stringify); non-terminating
decimal expansions are cut after twenty digits, approximating the
shortest-roundtrip formatting of JS floats. -/
def jsNumToString (q : Q) : String :=
  if q.d = 1 then intDec q.n
  else if q.d = 0 then "NaN"
  else
    let neg := decide (q.n < 0) != decide (q.d < 0)
    let a := q.n.natAbs
    let b := q.d.natAbs
    let ip := a / b
    let ds := fracDigits 20 (a % b) b
    let core := if ds.isEmpty then natDec ip else natDec ip ++ "." ++ String.mk ds
    if neg then "-" ++ core else core

/-- JavaScript runtime values as stored in records: the scalar types of the
data model plus `undefined` and `NaN`. -/
inductive JSVal where
  | str (s : String)
  | num (q : Q)
  | bool (b : Bool)
  | null
  | undef
  | nan
deriving DecidableEq

/-- Mantissa parser shared by the `parseFloat` model: integer digits, an
optional fraction, and an optional exponent; fails (NaN) without any digit. -/
def parseMant (sign : Int) (cs : List Char) : Option Q :=
  let ip := cs.takeWhile Char.isDigit
  let r := cs.dropWhile Char.isDigit
  let fr := if r.head? = some '.' then r.tail.takeWhile Char.isDigit else []
  let r2 := if r.head? = some '.' then r.tail.dropWhile Char.isDigit else r
  if ip.isEmpty && fr.isEmpty then none
  else
    let ex : Int :=
      if r2.head? = some 'e' ∨ r2.head? = some 'E' then
        let body := r2.tail
        let esign : Int := if body.head? = some '-' then -1 else 1
        let ebody := if body.head? = some '-' ∨ body.head? = some '+' then body.tail else body
        let ds := ebody.takeWhile Char.isDigit
        if ds.isEmpty then 0 else esign * natOfDigits ds
      else 0
    let mantN : Int := sign * (natOfDigits ip * 10 ^ fr.length + natOfDigits fr)
    let mantD : Int := 10 ^ fr.length
    if ex ≥ 0 then some ⟨mantN * 10 ^ ex.toNat, mantD⟩ else some ⟨mantN, mantD * 10 ^ (-ex).toNat⟩

/-- Model of JS `parseFloat`: skip leading whitespace, optional sign, then the
longest decimal-literal prefix; `none` models `NaN`.  (Exotic forms such as
`Infinity` are not modelled.) -/
def parseFloatAux (cs : List Char) : Option Q :=
  let t := cs.dropWhile Char.isWhitespace
  if t.head? = some '-' then parseMant (-1) t.tail
  else if t.head? = some '+' then parseMant 1 t.tail
  else parseMant 1 t

def parseFloat (s : String) : Option Q := parseFloatAux s.data

def dropSign (cs : List Char) : List Char :=
  if cs.head? = some '-' ∨ cs.head? = some '+' then cs.tail else cs

/-- Shape test for a full decimal numeric literal (used by the `Number()`
string-coercion model): optional sign, digits with optional fraction, and an
optional well-formed exponent, with nothing trailing. -/
def isNumericLit (cs : List Char) : Bool :=
  let b := dropSign cs
  let ip := b.takeWhile Char.isDigit
  let r := b.dropWhile Char.isDigit
  let fr := if r.head? = some '.' then r.tail.takeWhile Char.isDigit else []
  let r2 := if r.head? = some '.' then r.tail.dropWhile Char.isDigit else r
  if ip.isEmpty && fr.isEmpty then false
  else if r2.isEmpty then true
  else if r2.head? = some 'e' ∨ r2.head? = some 'E' then
    let e := dropSign r2.tail
    !(e.takeWhile Char.isDigit).isEmpty && (e.dropWhile Char.isDigit).isEmpty
  else false

/-- Model of JS `Number()` on strings (the coercion used by relational
comparison): trimmed empty string is `0`, a full numeric literal is its value,
anything else is `NaN`.  Hex and `Infinity` forms are not modelled. -/
def strToNumber (s : String) : Option Q :=
  let t := ((s.data.dropWhile Char.isWhitespace).reverse.dropWhile Char.isWhitespace).reverse
  if t.isEmpty then some ⟨0, 1⟩
  else if isNumericLit t then parseFloatAux t
  else none

/-- JS `ToNumber` on our values; `none` models `NaN`. -/
def JSVal.toNumber? : JSVal → Option Q
  | .num q => some q
  | .bool b => some (if b then ⟨1, 1⟩ else ⟨0, 1⟩)
  | .null => some ⟨0, 1⟩
  | .undef => none
  | .nan => none
  | .str s => strToNumber s

/-- JS abstract relational comparison `a < b`: lexicographic when both sides
are strings, otherwise numeric with any `NaN` operand yielding `false`. -/
def jsLt (a b : JSVal) : Bool :=
  match a, b with
  | .str x, .str y => decide (x < y)
  | _, _ =>
    match a.toNumber?, b.toNumber? with
    | some p, some q => qlt p q
    | _, _ => false

def jsGt (a b : JSVal) : Bool := jsLt b a

/-- JS strict equality `===`: `NaN` equals nothing; numbers compare by value. -/
def jsStrictEq (a b : JSVal) : Bool :=
  match a, b with
  | .nan, _ => false
  | _, .nan => false
  | .num p, .num q => qeq p q
  | x, y => x == y

/-- SameValueZero (the comparison used by `Array.includes`): like `===`
except that `NaN` equals `NaN`. -/
def jsSameValueZero (a b : JSVal) : Bool :=
  match a, b with
  | .nan, .nan => true
  | x, y => jsStrictEq x y

/-- JS `String()` coercion. -/
def JSVal.toStr : JSVal → String
  | .str s => s
  | .num q => jsNumToString q
  | .bool b => if b then "true" else "false"
  | .null => "null"
  | .undef => "undefined"
  | .nan => "NaN"

/-- A record: a JS object as an insertion-ordered association list. -/
abbrev Record := List (String × JSVal)

/-- Property read `item[field]`; a missing property reads as `undefined`. -/
def jsGet : Record → String → JSVal
  | [], _ => .undef
  | p :: t, f => if p.1 = f then p.2 else jsGet t f

/-- Property write: an existing key is overwritten in place, a new key is
appended, mirroring JS object key creation order. -/
def setField (r : Record) (k : String) (v : JSVal) : Record :=
  if r.any (fun p => p.1 == k) then r.map (fun p => if p.1 == k then (p.1, v) else p)
  else r ++ [(k, v)]


/-- Token of the regular expression built by the wildcard branch of
`evaluateRule` (`expectedValue.replace(/\*/g, '.*')`): a `*` in the spec
becomes the any-sequence form `.*`, a `.` is the any-character metacharacter,
every other character matches literally.  This tokenisation is faithful to
`new RegExp(pattern, 'i')` exactly for spec strings free of the remaining
regex metacharacters (no grouping, alternation, quantifier, anchor, class or
escape characters); the theorems about the wildcard branch are stated on
that fragment, singled out by `regexMeta` below. -/
inductive Tok where
  | star
  | dot
  | lit (c : Char)
deriving DecidableEq

def tokensOf (s : String) : List Tok :=
  s.data.map fun c => if c = '*' then .star else if c = '.' then .dot else .lit c

/-- Case-insensitive character comparison (the `i` regex flag). -/
def eqCI (a b : Char) : Bool := a.toLower == b.toLower

/-- Iterates a continuation over every suffix of the subject, modelling the
backtracking of `.*`. -/
def matchStar (m : List Char → Bool) : List Char → Bool
  | [] => m []
  | c :: t => m (c :: t) || matchStar m t

/-- Does the token pattern match a prefix of the subject (case-insensitive)? -/
def matchHere : List Tok → List Char → Bool
  | [], _ => true
  | .star :: p, s => matchStar (matchHere p) s
  | .dot :: p, s => match s with | [] => false | _ :: t => matchHere p t
  | .lit c :: p, s => match s with | [] => false | x :: t => eqCI c x && matchHere p t

/-- Model of `RegExp.test` with the `i` flag: the pattern may match starting
at any position of the subject (unanchored search). -/
def regexTest (p : List Tok) : List Char → Bool
  | [] => matchHere p []
  | c :: t => matchHere p (c :: t) || regexTest p t

/-- Condition argument of `evaluateRule`: a predicate function or a
field-to-expected-value object. -/
inductive RCond where
  | fn (p : Record → Bool)
  | map (m : List (String × JSVal))

/-- JS `a >= b`: the negation of `a < b` unless an operand is `NaN`. -/
def jsGe (a b : JSVal) : Bool :=
  match a, b with
  | .str x, .str y => decide (y ≤ x)
  | _, _ =>
    match a.toNumber?, b.toNumber? with
    | some p, some q => qle q p
    | _, _ => false

def jsLe (a b : JSVal) : Bool := jsGe b a

def strStartsWith (s pre : String) : Bool := pre.data.isPrefixOf s.data

def strDrop (s : String) (k : Nat) : String := ⟨s.data.drop k⟩

def strContainsChar (s : String) (c : Char) : Bool := s.data.contains c

/-- Lifts the partial numeric result of `parseFloat` back into a value
(`none` was `NaN`). -/
def nanOr : Option Q → JSVal
  | some q => .num q
  | none => .nan

/-- One field spec of `evaluateRule`'s object branch, checked against the
field's actual value.  Branches appear in source order
(`dataProcessor.js:375-392`): `>` before `<` before `>=` before `<=` — the
two-character tests are reachable only when the one-character tests fail,
hence never — then the wildcard test, then strict equality. -/
def evalSpec (actualValue expectedValue : JSVal) : Bool :=
  match expectedValue with
  | .str s =>
    if strStartsWith s ">" then jsGt actualValue (nanOr (parseFloat (strDrop s 1)))
    else if strStartsWith s "<" then jsLt actualValue (nanOr (parseFloat (strDrop s 1)))
    else if strStartsWith s ">=" then jsGe actualValue (nanOr (parseFloat (strDrop s 2)))
    else if strStartsWith s "<=" then jsLe actualValue (nanOr (parseFloat (strDrop s 2)))
    else if strContainsChar s '*' then regexTest (tokensOf s) (JSVal.toStr actualValue).data
    else jsStrictEq actualValue expectedValue
  | _ => jsStrictEq actualValue expectedValue

/-- Model of `evaluateRule` (`dataProcessor.js:366-397`). -/
def evaluateRule (item : Record) (condition : RCond) : Bool :=
  match condition with
  | .fn p => p item
  | .map m => m.all fun fe => evalSpec (jsGet item fe.1) fe.2

/-- Simple regex matcher for the `pattern` form of `filterData` criteria
(`new RegExp(condition.pattern).test(value)`, case-sensitive), covering the
fragment of literal characters, the `.` metacharacter, and a postfix `*`
quantifier.  Patterns using other regex metacharacters are outside this
model (they would keep their special JS meaning); no verified claim
exercises the `pattern` branch, which is modelled only so that `filterData`
is total on its full criteria type. -/
def reAtom (c x : Char) : Bool := c == '.' || c == x

/-- Backtracking loop of a starred atom `c*` followed by continuation `k`. -/
def reAtomStar (c : Char) (k : List Char → Bool) : List Char → Bool
  | [] => k []
  | x :: t => k (x :: t) || (reAtom c x && reAtomStar c k t)

def reMatchHere : List Char → List Char → Bool
  | [], _ => true
  | c :: '*' :: p2, s => reAtomStar c (fun u => reMatchHere p2 u) s
  | c :: rest, s =>
    match s with
    | [] => false
    | x :: t => reAtom c x && reMatchHere rest t

/-- Unanchored `RegExp.test` without flags. -/
def reTest (p : List Char) : List Char → Bool
  | [] => reMatchHere p []
  | c :: t => reMatchHere p (c :: t) || reTest p t

/-- One per-field condition of `filterData` criteria: a predicate function on
the field value, an array (membership), an object with optional
`min`/`max`/`pattern`, or a scalar (strict equality). -/
inductive FCond where
  | fn (p : JSVal → Bool)
  | arr (vs : List JSVal)
  | range (lo : Option JSVal) (hi : Option JSVal) (pattern : Option String)
  | scalar (v : JSVal)

/-- Evaluation of one `filterData` condition against a field value
(`dataProcessor.js:406-426`).  In the `range` form an absent (`undefined`)
bound is skipped, and the pattern test is skipped when `condition.pattern`
is falsy (absent or the empty string). -/
def evalFCond (value : JSVal) : FCond → Bool
  | .fn p => p value
  | .arr vs => vs.any (jsSameValueZero value)
  | .range lo hi pat =>
    if (match lo with | some m => jsLt value m | none => false) then false
    else if (match hi with | some m => jsGt value m | none => false) then false
    else if (match pat with
             | some ps => ps ≠ "" && !(reTest ps.data (JSVal.toStr value).data)
             | none => false) then false
    else true
  | .scalar v => jsStrictEq value v

abbrev Criteria := List (String × FCond)

/-- Core of `filterData` after input validation (`dataProcessor.js:402-431`):
keep a record iff every criteria entry holds on the record's field value. -/
def filterDataCore (data : List Record) (criteria : Criteria) : List Record :=
  data.filter fun item => criteria.all fun fc => evalFCond (jsGet item fc.1) fc.2

/-- Input validation shared by the operators (`validateData`): non-array
inputs are unrepresentable in the embedding, an empty array throws. -/
def validateNonEmpty (data : List Record) : Except String Unit :=
  if data.isEmpty then .error "Data array cannot be empty" else .ok ()

def filterData (data : List Record) (criteria : Criteria) : Except String (List Record) := do
  validateNonEmpty data
  pure (filterDataCore data criteria)

/-- A categorization rule `{category, condition, confidence?}`. -/
structure CatRule where
  category : String
  condition : RCond
  confidence : Option Q

/-- Result shape of `categorizeData`; the summary counters of the source are
incremented once per record pushed onto the corresponding list, so they are
recorded here as the lengths of those lists. -/
structure CatResult where
  categorized : List Record
  uncategorized : List Record
  categories : List (String × Nat)
  total : Nat
  categorizedCount : Nat
  uncategorizedCount : Nat
deriving DecidableEq

/-- One step of category seeding: `results.categories[rule.category] = 0`
(overwrite in place, or append a new key). -/
def seedStep (m : List (String × Nat)) (rule : CatRule) : List (String × Nat) :=
  if m.any (fun p => p.1 == rule.category) then
    m.map fun p => if p.1 == rule.category then (p.1, 0) else p
  else m ++ [(rule.category, 0)]

/-- Category seeding (`dataProcessor.js:328-330`): every rule's category is
entered with counter zero, in rule order (re-entering an existing name keeps
its position, as JS object assignment does). -/
def seedCats (rules : List CatRule) : List (String × Nat) :=
  rules.foldl seedStep []

/-- Counter increment `results.categories[rule.category]++`. -/
def bumpCat (m : List (String × Nat)) (c : String) : List (String × Nat) :=
  m.map fun p => if p.1 == c then (p.1, p.2 + 1) else p

def lookupCat : List (String × Nat) → String → Option Nat
  | [], _ => none
  | p :: t, c => if p.1 = c then some p.2 else lookupCat t c

/-- Record tagging on a rule match: `{...item, _index, _category,
_confidence}`; the source's `rule.confidence || 1.0` makes an absent or
falsy (zero) confidence default to one. -/
def tagMatched (item : Record) (idx : Nat) (rule : CatRule) : Record :=
  setField (setField (setField item "_index" (.num (qofNat idx)))
    "_category" (.str rule.category))
    "_confidence"
    (.num (match rule.confidence with
           | some c => if c.n = 0 then ⟨1, 1⟩ else c
           | none => ⟨1, 1⟩))

def tagIndexed (item : Record) (idx : Nat) : Record :=
  setField item "_index" (.num (qofNat idx))

/-- Per-record loop of `categorizeData` (`dataProcessor.js:332-357`); the
`for`/`break` scan over rules is the first match of the rule list. -/
def catGo (rules : List CatRule) :
    List Record → Nat → List (String × Nat) →
    List Record × List Record × List (String × Nat)
  | [], _, cats => ([], [], cats)
  | item :: rest, idx, cats =>
    match rules.find? (fun rule => evaluateRule item rule.condition) with
    | some rule =>
      let r := catGo rules rest (idx + 1) (bumpCat cats rule.category)
      (tagMatched item idx rule :: r.1, r.2.1, r.2.2)
    | none =>
      let r := catGo rules rest (idx + 1) cats
      (r.1, tagIndexed item idx :: r.2.1, r.2.2)

def categorizeDataCore (data : List Record) (rules : List CatRule) : CatResult :=
  let r := catGo rules data 0 (seedCats rules)
  { categorized := r.1
    uncategorized := r.2.1
    categories := r.2.2
    total := data.length
    categorizedCount := r.1.length
    uncategorizedCount := r.2.1.length }

def categorizeData (data : List Record) (rules : List CatRule) : Except String CatResult := do
  validateNonEmpty data
  pure (categorizeDataCore data rules)

/-- JSON string escaping (quotes and backslashes; control characters are not
exercised by the library's keys). -/
def jsonEscape (s : String) : String :=
  ⟨s.data.foldr (fun c acc => if c = '"' ∨ c = '\\' then '\\' :: c :: acc else c :: acc) []⟩

/-- JSON.stringify of a scalar value. -/
def stringifyVal : JSVal → String
  | .str s => "\"" ++ jsonEscape s ++ "\""
  | .num q => jsNumToString q
  | .bool b => if b then "true" else "false"
  | .null => "null"
  | .nan => "null"
  | .undef => "null"

def strIntercalate (sep : String) : List String → String
  | [] => ""
  | h :: t => t.foldl (fun acc s => acc ++ sep ++ s) h

/-- JSON.stringify of a record: properties in insertion order, properties
whose value is `undefined` omitted. -/
def stringifyRecord (r : Record) : String :=
  "\x7b" ++
    strIntercalate ","
      ((r.filter (fun p => p.2 ≠ .undef)).map fun p =>
        "\"" ++ jsonEscape p.1 ++ "\":" ++ stringifyVal p.2) ++
    "\x7d"

/-- Element coercion of `Array.prototype.join`: `null` and `undefined` become
the empty string, other values their string coercion. -/
def joinElemStr : JSVal → String
  | .null => ""
  | .undef => ""
  | v => v.toStr

/-- Duplicate key of a record (`dataProcessor.js:271-279`): the listed key
fields' values joined with a pipe, or the full JSON serialization. -/
def dupKey (keyFields : Option (List String)) (item : Record) : String :=
  match keyFields with
  | some fs => strIntercalate "|" (fs.map fun f => joinElemStr (jsGet item f))
  | none => stringifyRecord item

def lookupSeen : List (String × Nat) → String → Option Nat
  | [], _ => none
  | p :: t, k => if p.1 = k then some p.2 else lookupSeen t k

def tagDup (item : Record) (idx firstIdx : Nat) : Record :=
  setField (setField item "_index" (.num (qofNat idx))) "_duplicateOf" (.num (qofNat firstIdx))

/-- Scan loop of `findDuplicates` (`dataProcessor.js:270-294`), returning
`(duplicates, unique)`; `seen` maps each key to the index of its first
occurrence. -/
def findDupGo (kf : Option (List String)) :
    List Record → Nat → List (String × Nat) → List Record × List Record
  | [], _, _ => ([], [])
  | item :: rest, idx, seen =>
    let k := dupKey kf item
    match lookupSeen seen k with
    | some firstIdx =>
      let r := findDupGo kf rest (idx + 1) seen
      (tagDup item idx firstIdx :: r.1, r.2)
    | none =>
      let r := findDupGo kf rest (idx + 1) (seen ++ [(k, idx)])
      (r.1, tagIndexed item idx :: r.2)

/-- Model of `Number.prototype.toFixed(2)`: round to the nearest hundredth
(ties toward the larger value) and print with exactly two decimals. -/
def toFixed2 (q : Q) : String :=
  let c := qfloor (qadd (qmul q ⟨100, 1⟩) ⟨1, 2⟩)
  if c < 0 then
    "-" ++ natDec ((-c).toNat / 100) ++ "." ++
      (if (-c).toNat % 100 < 10 then "0" else "") ++ natDec ((-c).toNat % 100)
  else
    natDec (c.toNat / 100) ++ "." ++
      (if c.toNat % 100 < 10 then "0" else "") ++ natDec (c.toNat % 100)

structure DupResult where
  duplicates : List Record
  unique : List Record
  total : Nat
  uniqueCount : Nat
  duplicateCount : Nat
  duplicateRate : String
deriving DecidableEq

/-- Core of `findDuplicates` (`dataProcessor.js:262-307`). -/
def findDuplicatesCore (data : List Record) (kf : Option (List String)) : DupResult :=
  let r := findDupGo kf data 0 []
  { duplicates := r.1
    unique := r.2
    total := data.length
    uniqueCount := r.2.length
    duplicateCount := r.1.length
    duplicateRate :=
      toFixed2 (qmul (qdiv (qofNat r.1.length) (qofNat data.length)) ⟨100, 1⟩) ++ "%" }

def findDuplicates (data : List Record) (kf : Option (List String)) :
    Except String DupResult := do
  validateNonEmpty data
  pure (findDuplicatesCore data kf)

/-- Canonical array-index test of JS object key ordering: the decimal string
of an integer below `2^32 - 1` without leading zeros. -/
def isArrayIndexKey (s : String) : Bool :=
  let cs := s.data
  !cs.isEmpty && cs.all Char.isDigit &&
    (cs.head? ≠ some '0' || cs.length == 1) &&
    natOfDigits cs < 4294967295

/-- Appends a record to its group (`groups[groupKey].push(item)`), creating
the group at the end on first sight (`dataProcessor.js:442-448`). -/
def addToGroup (gs : List (String × List Record)) (k : String) (item : Record) :
    List (String × List Record) :=
  if gs.any (fun p => p.1 == k) then
    gs.map fun p => if p.1 == k then (p.1, p.2 ++ [item]) else p
  else gs ++ [(k, [item])]

/-- Insertion-ordered grouping of records by the stringified `groupBy` value. -/
def groupsIns (data : List Record) (groupBy : String) : List (String × List Record) :=
  data.foldl (fun gs item => addToGroup gs (jsGet item groupBy).toStr item) []

def insertByNum (p : String × List Record) :
    List (String × List Record) → List (String × List Record)
  | [] => [p]
  | q :: t =>
    if natOfDigits p.1.data ≤ natOfDigits q.1.data then p :: q :: t else q :: insertByNum p t

def sortByNum : List (String × List Record) → List (String × List Record)
  | [] => []
  | p :: t => insertByNum p (sortByNum t)

/-- `Object.entries` enumeration order on a plain object: keys that are
canonical array indices first, in ascending numeric order, then the remaining
string keys in insertion order. -/
def entriesOrder (gs : List (String × List Record)) : List (String × List Record) :=
  sortByNum (gs.filter fun p => isArrayIndexKey p.1) ++
    gs.filter fun p => !isArrayIndexKey p.1

/-- The groups of `aggregateData` in the order `Object.entries(groups)`
enumerates them. -/
def jsGroups (data : List Record) (groupBy : String) : List (String × List Record) :=
  entriesOrder (groupsIns data groupBy)

/-- JS `+` on primitive values: string concatenation when either side is a
string, numeric addition otherwise (`NaN` propagates). -/
def jsAdd (a b : JSVal) : JSVal :=
  match a, b with
  | .str x, y => .str (x ++ y.toStr)
  | x, .str y => .str (x.toStr ++ y)
  | x, y =>
    match x.toNumber?, y.toNumber? with
    | some p, some q => .num (qadd p q)
    | _, _ => .nan

/-- JS `a / b` on the guarded paths of `aggregateData` (the divisor is a
positive group size there; division by zero is collapsed to `NaN`). -/
def jsDiv (a b : JSVal) : JSVal :=
  match a.toNumber?, b.toNumber? with
  | some p, some q => if q.n = 0 then .nan else .num (qdiv p q)
  | _, _ => .nan

/-- Numeric coercion of an argument list; `none` as soon as one argument
coerces to `NaN`. -/
def toNumList : List JSVal → Option (List Q)
  | [] => some []
  | v :: t =>
    match v.toNumber?, toNumList t with
    | some q, some qs => some (q :: qs)
    | _, _ => none

/-- `Math.min(...values)`: every argument is coerced to number, any `NaN`
poisons the result; empty argument lists do not occur on the guarded path. -/
def jsMathMin (vs : List JSVal) : JSVal :=
  match toNumList vs with
  | some [] => .nan
  | some (q :: qs) => .num (qs.foldl qmin q)
  | none => .nan

def jsMathMax (vs : List JSVal) : JSVal :=
  match toNumList vs with
  | some [] => .nan
  | some (q :: qs) => .num (qs.foldl qmax q)
  | none => .nan

structure AggSpec where
  field : String
  operation : String

/-- Field values of a group with `null`/`undefined` filtered out
(`dataProcessor.js:454`). -/
def nonNullVals (groupData : List Record) (f : String) : List JSVal :=
  (groupData.map fun item => jsGet item f).filter fun v => v ≠ .undef ∧ v ≠ .null

/-- Accumulation `values.reduce((sum, val) => sum + val, 0)`. -/
def jsSum (vs : List JSVal) : JSVal := vs.foldl jsAdd (.num ⟨0, 1⟩)

/-- One aggregation of the `switch` in `dataProcessor.js:456-472`: the derived
field set for the spec, or `none` when the operation name is unknown. -/
def aggApply (groupData : List Record) (agg : AggSpec) : Option (String × JSVal) :=
  let values := nonNullVals groupData agg.field
  if agg.operation = "sum" then
    some (agg.field ++ "_sum", jsSum values)
  else if agg.operation = "avg" then
    some (agg.field ++ "_avg",
      if values.length > 0 then jsDiv (jsSum values) (.num (qofNat values.length)) else .num ⟨0, 1⟩)
  else if agg.operation = "min" then
    some (agg.field ++ "_min", if values.length > 0 then jsMathMin values else .null)
  else if agg.operation = "max" then
    some (agg.field ++ "_max", if values.length > 0 then jsMathMax values else .null)
  else if agg.operation = "count" then
    some (agg.field ++ "_count", .num (qofNat values.length))
  else none

/-- Output record of one group: `{ [groupBy]: groupKey, count:
groupData.length }` then one property assignment per known aggregation. -/
def groupRecord (groupBy : String) (aggs : List AggSpec) (g : String × List Record) : Record :=
  aggs.foldl
    (fun r agg =>
      match aggApply g.2 agg with
      | some fv => setField r fv.1 fv.2
      | none => r)
    (setField [(groupBy, .str g.1)] "count" (.num (qofNat g.2.length)))

/-- Core of `aggregateData` (`dataProcessor.js:436-480`). -/
def aggregateDataCore (data : List Record) (groupBy : String) (aggs : List AggSpec) :
    List Record :=
  (jsGroups data groupBy).map (groupRecord groupBy aggs)

def aggregateData (data : List Record) (groupBy : String) (aggs : List AggSpec) :
    Except String (List Record) := do
  validateNonEmpty data
  pure (aggregateDataCore data groupBy aggs)

/-- Lowercasing of a whole string (`String.prototype.toLowerCase`). -/
def strToLower (s : String) : String := ⟨s.data.map Char.toLower⟩

def splitOnChar (c : Char) : List Char → List (List Char)
  | [] => [[]]
  | x :: t =>
    let r := splitOnChar c t
    if x = c then [] :: r
    else
      match r with
      | [] => [[x]]
      | h :: t2 => (x :: h) :: t2

/-- Extension extraction `filePath.toLowerCase().split('.').pop()` used by the
`'auto'` format of `readFile`/`writeFile` (`index.js:108-110`). -/
def extOf (path : String) : String :=
  ⟨((splitOnChar '.' (strToLower path).data).getLastD [])⟩

/-- One entry of a workflow `operations` list; its parameters live behind the
pipeline collaborator of the environment. -/
structure OpCfg where
  otype : String

/-- Environment of external collaborators consumed by the orchestrator: the
HTTP transport, the file codecs, and the pipeline runner `processData`
dispatching the dynamically-typed intermediate value (carrier type `D`).
Each collaborator either produces a value or throws, modelled with
`Except String`. -/
structure WfEnv (D : Type) where
  httpGet : String → Except String D
  readJSON : String → Except String D
  readCSV : String → Except String D
  writeJSON : String → D → Except String Unit
  writeCSV : String → D → Except String Unit
  processData : D → List OpCfg → Except String D
  arrayLength : D → Option Nat

/-- Dispatch of `Client.readFile` (`index.js:107-121`). -/
def readFileC {D : Type} (env : WfEnv D) (path format : String) : Except String D :=
  let fmt := if format = "auto" then extOf path else format
  if strToLower fmt = "json" then env.readJSON path
  else if strToLower fmt = "csv" then env.readCSV path
  else .error ("Unsupported file format: " ++ fmt)

/-- Dispatch of `Client.writeFile` (`index.js:126-140`). -/
def writeFileC {D : Type} (env : WfEnv D) (path : String) (d : D) (format : String) :
    Except String Unit :=
  let fmt := if format = "auto" then extOf path else format
  if strToLower fmt = "json" then env.writeJSON path d
  else if strToLower fmt = "csv" then env.writeCSV path d
  else .error ("Unsupported file format: " ++ fmt)

structure WfSource where
  stype : String
  url : String
  path : String
  format : String

structure WfOutput where
  otype : String
  path : String
  format : String

structure WfConfig where
  source : WfSource
  operations : Option (List OpCfg)
  output : Option WfOutput

structure WfSummary where
  recordsProcessed : Nat
  operations : Nat
deriving DecidableEq

/-- The uniform envelope of `workflow`: `{success, data, error, summary}`
(`data = none` models `data: null`). -/
structure WfEnvelope (D : Type) where
  success : Bool
  data : Option D
  error : Option String
  summary : Option WfSummary
deriving DecidableEq

/-- Result of a workflow run: either the raw transformed value (the
`output.type === 'return'` short-circuit) or an envelope. -/
inductive WfOut (D : Type) where
  | raw (d : D)
  | env (e : WfEnvelope D)
deriving DecidableEq

/-- Load stage (`index.js:178-186`): dispatch on `source.type`. -/
def loadStage {D : Type} (env : WfEnv D) (src : WfSource) : Except String D :=
  if src.stype = "http" then env.httpGet src.url
  else if src.stype = "file" then readFileC env src.path src.format
  else .error ("Unsupported source type: " ++ src.stype)

/-- Transform stage (`index.js:189-191`): run the pipeline when a non-empty
operations list is configured. -/
def transformStage {D : Type} (env : WfEnv D) (d : D) (ops : Option (List OpCfg)) :
    Except String D :=
  match ops with
  | some l => if l.length > 0 then env.processData d l else pure d
  | none => pure d

def mkSummary {D : Type} (env : WfEnv D) (d : D) (ops : Option (List OpCfg)) : WfSummary :=
  { recordsProcessed := match env.arrayLength d with | some k => k | none => 1
    operations := match ops with | some l => l.length | none => 0 }

def successEnvelope {D : Type} (env : WfEnv D) (d : D) (ops : Option (List OpCfg)) : WfOut D :=
  .env { success := true, data := some d, error := none, summary := some (mkSummary env d ops) }

/-- Emit stage (`index.js:193-209`): write to a file and fall through to the
success envelope, short-circuit with the raw value on `output.type ===
'return'`, or fall through directly. -/
def emitStage {D : Type} (env : WfEnv D) (d : D) (cfg : WfConfig) :
    Except String (WfOut D) :=
  match cfg.output with
  | some out =>
    if out.otype = "file" then do
      writeFileC env out.path d out.format
      pure (successEnvelope env d cfg.operations)
    else if out.otype = "return" then pure (.raw d)
    else pure (successEnvelope env d cfg.operations)
  | none => pure (successEnvelope env d cfg.operations)

/-- Body of the `try` block of `workflow` (`index.js:177-209`):
Load, then Transform, then Emit. -/
def workflowTry {D : Type} (env : WfEnv D) (cfg : WfConfig) : Except String (WfOut D) := do
  let d ← loadStage env cfg.source
  let d2 ← transformStage env d cfg.operations
  emitStage env d2 cfg

/-- The failure envelope built by the `catch` block (`index.js:211-217`). -/
def failureEnvelope {D : Type} (msg : String) : WfOut D :=
  .env { success := false, data := none, error := some msg, summary := none }

/-- Model of `Client.workflow` (`index.js:173-218`): the whole staged body
runs inside one `try`, and any thrown error is converted to the failure
envelope — the function itself is total and never propagates an exception. -/
def workflow {D : Type} (env : WfEnv D) (cfg : WfConfig) : WfOut D :=
  match workflowTry env cfg with
  | .ok r => r
  | .error msg => failureEnvelope msg

/-! Basic lemmas about the value model. -/

theorem jsLt_nan_left (v : JSVal) : jsLt .nan v = false := by
  cases v <;> rfl

theorem jsLt_nan_right (v : JSVal) : jsLt v .nan = false := by
  cases v
  case str s =>
    simp only [jsLt, JSVal.toNumber?]
    rcases h : strToNumber s with _ | q <;> simp [h]
  all_goals rfl

theorem jsLt_undef_left (v : JSVal) : jsLt .undef v = false := by
  cases v <;> rfl

theorem jsLt_undef_right (v : JSVal) : jsLt v .undef = false := by
  cases v
  case str s =>
    simp only [jsLt, JSVal.toNumber?]
    rcases h : strToNumber s with _ | q <;> simp [h]
  all_goals rfl

theorem jsGt_nan_right (v : JSVal) : jsGt v .nan = false := jsLt_nan_left v

/-- A string beginning with `=` has no numeric prefix: `parseFloat` is `NaN`. -/
theorem parseFloatAux_eq_head (l : List Char) : parseFloatAux ('=' :: l) = none := by
  simp [parseFloatAux, parseMant, List.dropWhile_cons, List.takeWhile_cons]

theorem strStartsWith_ge (s : String) : strStartsWith (">=" ++ s) ">" = true := by
  simp [strStartsWith, String.data_append, List.isPrefixOf]

theorem strStartsWith_le (s : String) : strStartsWith ("<=" ++ s) "<" = true := by
  simp [strStartsWith, String.data_append, List.isPrefixOf]

theorem strDrop_ge (s : String) : strDrop (">=" ++ s) 1 = ⟨'=' :: s.data⟩ := by
  simp [strDrop, String.data_append]

theorem strDrop_le (s : String) : strDrop ("<=" ++ s) 1 = ⟨'=' :: s.data⟩ := by
  simp [strDrop, String.data_append]

/-- A spec string of the form `>=...` is consumed by the `>` branch and the
mutilated remainder `=...` parses to `NaN`, so the whole spec never matches. -/
theorem evalSpec_ge_false (v : JSVal) (s : String) :
    evalSpec v (.str (">=" ++ s)) = false := by
  have h1 : strStartsWith (">=" ++ s) ">" = true := strStartsWith_ge s
  simp only [evalSpec, h1, if_true]
  rw [strDrop_ge, show parseFloat ⟨'=' :: s.data⟩ = none from parseFloatAux_eq_head s.data]
  exact jsGt_nan_right v

theorem evalSpec_le_false (v : JSVal) (s : String) :
    evalSpec v (.str ("<=" ++ s)) = false := by
  have h0 : strStartsWith ("<=" ++ s) ">" = false := by
    simp [strStartsWith, String.data_append, List.isPrefixOf]
  have h1 : strStartsWith ("<=" ++ s) "<" = true := strStartsWith_le s
  simp only [evalSpec, h0, h1, if_true, Bool.false_eq_true, if_false]
  rw [strDrop_le, show parseFloat ⟨'=' :: s.data⟩ = none from parseFloatAux_eq_head s.data]
  exact jsLt_nan_right v

/-- C1 counterexample input: a record whose `age` is `35` and the condition
`{age: '>=35'}`.  A greater-or-equal comparison of `35` against `35` holds,
yet `evaluateRule` rejects the record, because the spec string is captured by
the single-character `>` branch first. -/
theorem claim_C1_counterexample :
    evaluateRule [("age", JSVal.num ⟨35, 1⟩)] (RCond.map [("age", JSVal.str ">=35")]) = false ∧
    qle ⟨35, 1⟩ ⟨35, 1⟩ = true ∧
    strStartsWith ">=35" ">=" = true := by
  refine ⟨by decide, by decide, by decide⟩

/-- C1 (amended): in `evaluateRule` the single-character `>` and `<` prefixes
are matched before the two-character `>=` and `<=` prefixes, so a field spec
`'>=N'` (or `'<=N'`) is sliced after one character, `parseFloat('=N')` is
`NaN`, and the condition never matches any record; the two-character branches
are unreachable. -/
theorem claim_C1 (item : Record) (f : String) (s : String) :
    evaluateRule item (RCond.map [(f, JSVal.str (">=" ++ s))]) = false ∧
    evaluateRule item (RCond.map [(f, JSVal.str ("<=" ++ s))]) = false := by
  constructor
  · simp [evaluateRule, evalSpec_ge_false]
  · simp [evaluateRule, evalSpec_le_false]

/-- C9: on every non-empty record array, `filterData` with empty criteria is
the identity: the per-record conjunction over an empty criteria map is
vacuously true, so every record is kept in content and order. -/
theorem claim_C9 (data : List Record) (h : data ≠ []) :
    filterData data [] = .ok data := by
  have he : data.isEmpty = false := by
    cases data with
    | nil => exact absurd rfl h
    | cons a t => rfl
  simp [filterData, validateNonEmpty, he, filterDataCore]

/-- Witness for C9 at a concrete one-record input. -/
theorem claim_C9_witness :
    filterData [[("a", JSVal.num ⟨1, 1⟩)]] [] = .ok [[("a", JSVal.num ⟨1, 1⟩)]] :=
  claim_C9 [[("a", JSVal.num ⟨1, 1⟩)]] (by decide)

/-- C10: a record missing field `f` reads `undefined` there, and both bound
comparisons of a `{min, max}` range condition against `undefined` are
`false`, so `filterData` keeps the record with respect to that condition. -/
theorem claim_C10 (item : Record) (f : String) (lo hi : Option JSVal)
    (h : jsGet item f = .undef) :
    evalFCond (jsGet item f) (.range lo hi none) = true ∧
    filterDataCore [item] [(f, .range lo hi none)] = [item] := by
  have hc : evalFCond (jsGet item f) (.range lo hi none) = true := by
    rw [h]
    have h1 : (match lo with | some m => jsLt .undef m | none => false) = false := by
      cases lo with
      | none => rfl
      | some m => exact jsLt_undef_left m
    have h2 : (match hi with | some m => jsGt .undef m | none => false) = false := by
      cases hi with
      | none => rfl
      | some m => exact jsLt_undef_right m
    simp [evalFCond, h1, h2]
  refine ⟨hc, ?_⟩
  simp [filterDataCore, hc]

/-- Witness for C10: a record with only field `a`, filtered on a numeric
range over the missing field `b`, is kept. -/
theorem claim_C10_witness :
    evalFCond (jsGet [("a", JSVal.num ⟨1, 1⟩)] "b")
      (.range (some (.num ⟨30, 1⟩)) (some (.num ⟨40, 1⟩)) none) = true ∧
    filterDataCore [[("a", JSVal.num ⟨1, 1⟩)]]
      [("b", .range (some (.num ⟨30, 1⟩)) (some (.num ⟨40, 1⟩)) none)]
      = [[("a", JSVal.num ⟨1, 1⟩)]] :=
  claim_C10 [("a", JSVal.num ⟨1, 1⟩)] "b" (some (.num ⟨30, 1⟩)) (some (.num ⟨40, 1⟩)) (by decide)

/-- C3: every stage failure of `workflow` — Load, Transform, or Emit — is
converted by the surrounding `catch` into the envelope `{success: false,
error: message, data: null}`; `workflow` is a total function of its
environment and configuration, so no exception reaches the caller. -/
theorem claim_C3 {D : Type} (env : WfEnv D) (cfg : WfConfig) (msg : String) :
    (loadStage env cfg.source = .error msg → workflow env cfg = failureEnvelope msg) ∧
    (∀ d, loadStage env cfg.source = .ok d →
      transformStage env d cfg.operations = .error msg →
      workflow env cfg = failureEnvelope msg) ∧
    (∀ d d2, loadStage env cfg.source = .ok d →
      transformStage env d cfg.operations = .ok d2 →
      emitStage env d2 cfg = .error msg →
      workflow env cfg = failureEnvelope msg) := by
  refine ⟨fun h1 => ?_, fun d h1 h2 => ?_, fun d d2 h1 h2 h3 => ?_⟩
  · simp [workflow, workflowTry, h1, Bind.bind, Except.bind]
  · simp [workflow, workflowTry, h1, h2, Bind.bind, Except.bind]
  · simp [workflow, workflowTry, h1, h2, h3, Bind.bind, Except.bind]

/-- Witness for C3: a file source whose path is unreadable (the JSON reader
collaborator throws) produces the failure envelope with `success = false`,
`data = null`, and the reader's message as the populated error string. -/
theorem claim_C3_witness :
    workflow
      { httpGet := fun _ => .error "net down"
        readJSON := fun _ => .error "Failed to read JSON file: EACCES: permission denied"
        readCSV := fun _ => .error "Failed to read CSV file: EACCES: permission denied"
        writeJSON := fun _ _ => .ok ()
        writeCSV := fun _ _ => .ok ()
        processData := fun d _ => .ok d
        arrayLength := fun _ => none : WfEnv Nat }
      { source := { stype := "file", url := "", path := "/locked/data.json", format := "auto" }
        operations := none
        output := none }
      = failureEnvelope "Failed to read JSON file: EACCES: permission denied" :=
  (claim_C3 _ _ _).1 rfl
/-! Lemmas about the category counter map. -/

theorem lookupCat_mapKey (m : List (String × Nat)) (k c : String) (f : Nat → Nat) :
    lookupCat (m.map fun p => if p.1 == k then (p.1, f p.2) else p) c
      = (lookupCat m c).map fun v => if c = k then f v else v := by
  induction m with
  | nil => rfl
  | cons p t ih =>
    simp only [List.map_cons]
    by_cases hpk : p.1 = k
    · have hhead : (if (p.1 == k) = true then (p.1, f p.2) else p) = (p.1, f p.2) := by
        simp [hpk]
      rw [hhead]
      by_cases hpc : p.1 = c
      · have hck : c = k := by rw [← hpc, hpk]
        simp [lookupCat, hpc, hck]
      · simp [lookupCat, hpc]
        simpa using ih
    · have hhead : (if (p.1 == k) = true then (p.1, f p.2) else p) = p := by
        simp [hpk]
      rw [hhead]
      by_cases hpc : p.1 = c
      · have hck : ¬c = k := fun hh => hpk (hpc.trans hh)
        simp [lookupCat, hpc, hck]
      · simp [lookupCat, hpc]
        simpa using ih

theorem lookupCat_bumpCat (m : List (String × Nat)) (b c : String) :
    lookupCat (bumpCat m b) c = (lookupCat m c).map fun v => if c = b then v + 1 else v :=
  lookupCat_mapKey m b c (· + 1)

theorem lookupCat_append (m m2 : List (String × Nat)) (c : String) :
    lookupCat (m ++ m2) c =
      match lookupCat m c with
      | some v => some v
      | none => lookupCat m2 c := by
  induction m with
  | nil => rfl
  | cons p t ih =>
    by_cases hpc : p.1 = c <;> simp [lookupCat, hpc, ih]

theorem lookupCat_eq_none_of_not_any (m : List (String × Nat)) (c : String)
    (h : m.any (fun p => p.1 == c) = false) : lookupCat m c = none := by
  induction m with
  | nil => rfl
  | cons p t ih =>
    simp only [List.any_cons, Bool.or_eq_false_iff, beq_eq_false_iff_ne, ne_eq] at h
    simp [lookupCat, h.1, ih (by simpa using h.2)]

theorem lookupCat_overwrite_self (m : List (String × Nat)) (c : String)
    (h : m.any (fun p => p.1 == c) = true) :
    lookupCat (m.map fun p => if p.1 == c then (p.1, 0) else p) c = some 0 := by
  induction m with
  | nil => simp at h
  | cons p t ih =>
    simp only [List.map_cons]
    by_cases hp : p.1 = c
    · have hhead : (if (p.1 == c) = true then (p.1, (0 : Nat)) else p) = (p.1, 0) := by
        simp [hp]
      rw [hhead]
      simp [lookupCat, hp]
    · have hhead : (if (p.1 == c) = true then (p.1, (0 : Nat)) else p) = p := by
        simp [hp]
      rw [hhead]
      have h2 : t.any (fun p => p.1 == c) = true := by
        simp only [List.any_cons, Bool.or_eq_true] at h
        rcases h with h1 | h1
        · exact absurd (by simpa using h1) hp
        · exact h1
      simp [lookupCat, hp]
      simpa using ih h2

theorem lookupCat_overwrite_preserve (m : List (String × Nat)) (k c : String)
    (h : lookupCat m c = some 0) :
    lookupCat (m.map fun p => if p.1 == k then (p.1, 0) else p) c = some 0 := by
  induction m with
  | nil => simp [lookupCat] at h
  | cons p t ih =>
    simp only [List.map_cons]
    by_cases hpk : p.1 = k
    · have hhead : (if (p.1 == k) = true then (p.1, (0 : Nat)) else p) = (p.1, 0) := by
        simp [hpk]
      rw [hhead]
      by_cases hpc : p.1 = c
      · simp [lookupCat, hpc]
      · have h' : lookupCat t c = some 0 := by simpa [lookupCat, hpc] using h
        simp [lookupCat, hpc]
        simpa using ih h'
    · have hhead : (if (p.1 == k) = true then (p.1, (0 : Nat)) else p) = p := by
        simp [hpk]
      rw [hhead]
      by_cases hpc : p.1 = c
      · have hv : p.2 = 0 := by simpa [lookupCat, hpc] using h
        simp [lookupCat, hpc, hv]
      · have h' : lookupCat t c = some 0 := by simpa [lookupCat, hpc] using h
        simp [lookupCat, hpc]
        simpa using ih h'

theorem lookupCat_seedStep_self (m : List (String × Nat)) (rule : CatRule) :
    lookupCat (seedStep m rule) rule.category = some 0 := by
  unfold seedStep
  cases ha : m.any (fun p => p.1 == rule.category) with
  | true =>
    rw [if_pos rfl]
    exact lookupCat_overwrite_self m rule.category ha
  | false =>
    rw [if_neg Bool.false_ne_true]
    rw [lookupCat_append, lookupCat_eq_none_of_not_any m rule.category ha]
    simp [lookupCat]

theorem lookupCat_seedStep_preserve (m : List (String × Nat)) (rule : CatRule) (c : String)
    (h : lookupCat m c = some 0) : lookupCat (seedStep m rule) c = some 0 := by
  unfold seedStep
  cases ha : m.any (fun p => p.1 == rule.category) with
  | true =>
    rw [if_pos rfl]
    exact lookupCat_overwrite_preserve m rule.category c h
  | false =>
    rw [if_neg Bool.false_ne_true]
    rw [lookupCat_append, h]

theorem lookupCat_seedAux (rules : List CatRule) :
    ∀ (m : List (String × Nat)) (c : String),
      (c ∈ rules.map (·.category) ∨ lookupCat m c = some 0) →
      lookupCat (rules.foldl seedStep m) c = some 0 := by
  induction rules with
  | nil =>
    intro m c h
    rcases h with h | h
    · simp at h
    · exact h
  | cons r rest ih =>
    intro m c h
    simp only [List.foldl_cons]
    rcases h with h | h
    · simp only [List.map_cons, List.mem_cons] at h
      rcases h with h | h
      · exact ih (seedStep m r) c (Or.inr (h ▸ lookupCat_seedStep_self m r))
      · exact ih (seedStep m r) c (Or.inl h)
    · exact ih (seedStep m r) c (Or.inr (lookupCat_seedStep_preserve m r c h))

theorem lookupCat_seedCats_of_mem (rules : List CatRule) (c : String)
    (h : c ∈ rules.map (·.category)) : lookupCat (seedCats rules) c = some 0 :=
  lookupCat_seedAux rules [] c (Or.inl h)

/-! Lemmas about the categorization scan. -/

theorem catGo_lengths (rules : List CatRule) (l : List Record) :
    ∀ (idx : Nat) (cats : List (String × Nat)),
      (catGo rules l idx cats).1.length + (catGo rules l idx cats).2.1.length = l.length := by
  induction l with
  | nil => intro idx cats; rfl
  | cons item rest ih =>
    intro idx cats
    cases h : rules.find? (fun rule => evaluateRule item rule.condition) with
    | some rule =>
      have := ih (idx + 1) (bumpCat cats rule.category)
      simp [catGo, h]
      omega
    | none =>
      have := ih (idx + 1) cats
      simp [catGo, h]
      omega

theorem catGo_cats_isSome (rules : List CatRule) (l : List Record) :
    ∀ (idx : Nat) (cats : List (String × Nat)) (c : String),
      (lookupCat (catGo rules l idx cats).2.2 c).isSome = (lookupCat cats c).isSome := by
  induction l with
  | nil => intro idx cats c; rfl
  | cons item rest ih =>
    intro idx cats c
    cases h : rules.find? (fun rule => evaluateRule item rule.condition) with
    | some rule =>
      simp only [catGo, h]
      rw [ih (idx + 1) (bumpCat cats rule.category) c, lookupCat_bumpCat]
      cases lookupCat cats c <;> rfl
    | none =>
      simp only [catGo, h]
      exact ih (idx + 1) cats c

/-- Number of records in `l` whose first matching rule bears category `c` --
the exact value of the category counter accumulated by the scan. -/
def matchCount (rules : List CatRule) (c : String) (l : List Record) : Nat :=
  (l.filter fun item =>
    match rules.find? (fun rule => evaluateRule item rule.condition) with
    | some rule => rule.category == c
    | none => false).length

/-- The scan adds to each seeded counter exactly the number of records whose
first matching rule bears that counter's category. -/
theorem catGo_cats_count (rules : List CatRule) (l : List Record) :
    ∀ (idx : Nat) (cats : List (String × Nat)) (c : String),
      lookupCat (catGo rules l idx cats).2.2 c
        = (lookupCat cats c).map fun v => v + matchCount rules c l := by
  induction l with
  | nil =>
    intro idx cats c
    simp only [catGo, matchCount, List.filter_nil, List.length_nil]
    cases lookupCat cats c <;> simp
  | cons item rest ih =>
    intro idx cats c
    cases h : rules.find? (fun rule => evaluateRule item rule.condition) with
    | some rule =>
      simp only [catGo, h]
      rw [ih (idx + 1) (bumpCat cats rule.category) c, lookupCat_bumpCat]
      have hm : matchCount rules c (item :: rest)
          = (if rule.category == c then 1 else 0) + matchCount rules c rest := by
        unfold matchCount
        rw [List.filter_cons]
        simp only [h]
        cases hc : rule.category == c <;> simp [hc, Nat.add_comm]
      rw [hm]
      cases hl : lookupCat cats c with
      | none => rfl
      | some v =>
        by_cases hcc : c = rule.category
        · simp [hcc, Nat.add_assoc]
        · have hcc2 : (rule.category == c) = false :=
            beq_eq_false_iff_ne.mpr fun hh => hcc hh.symm
          simp [hcc, hcc2]
    | none =>
      simp only [catGo, h]
      rw [ih (idx + 1) cats c]
      have hm : matchCount rules c (item :: rest) = matchCount rules c rest := by
        unfold matchCount
        rw [List.filter_cons]
        simp [h]
      rw [hm]

/-- C6: the categories map of `categorizeData` carries a key for every
category named in the rules, whose value is exactly the number of records
whose first matching rule bears that category -- in particular zero when no
rule with that category matches any record -- and the
categorized/uncategorized lists partition the input by length. -/
theorem claim_C6 (data : List Record) (rules : List CatRule) (h : data ≠ [])
    (r : CatResult) (hr : categorizeData data rules = .ok r) :
    (∀ rule ∈ rules, lookupCat r.categories rule.category
        = some (matchCount rules rule.category data)) ∧
    (∀ rule ∈ rules,
      (∀ item ∈ data, ∀ rule2 ∈ rules, rule2.category = rule.category →
        evaluateRule item rule2.condition = false) →
      lookupCat r.categories rule.category = some 0) ∧
    r.categorized.length + r.uncategorized.length = data.length := by
  have he : data.isEmpty = false := by
    cases data with
    | nil => exact absurd rfl h
    | cons a t => rfl
  have hcore : r = categorizeDataCore data rules := by
    simp [categorizeData, validateNonEmpty, he, Bind.bind, Except.bind, pure, Except.pure] at hr
    exact hr.symm
  subst hcore
  have hval : ∀ rule ∈ rules,
      lookupCat (categorizeDataCore data rules).categories rule.category
        = some (matchCount rules rule.category data) := by
    intro rule hrule
    unfold categorizeDataCore
    rw [catGo_cats_count rules data 0 (seedCats rules) rule.category,
      lookupCat_seedCats_of_mem rules rule.category (List.mem_map_of_mem _ hrule)]
    simp
  refine ⟨hval, ?_, catGo_lengths rules data 0 (seedCats rules)⟩
  intro rule hrule hnever
  have hmc : matchCount rules rule.category data = 0 := by
    unfold matchCount
    rw [List.length_eq_zero, List.filter_eq_nil_iff]
    intro item hitem
    cases hf : rules.find? (fun rl => evaluateRule item rl.condition) with
    | none => simp [hf]
    | some rule2 =>
      have hmem2 : rule2 ∈ rules := List.mem_of_find?_eq_some hf
      have hev : evaluateRule item rule2.condition = true := by
        have hp := List.find?_some hf
        simpa using hp
      simp only [hf]
      by_cases hcc : rule2.category = rule.category
      · rw [hnever item hitem rule2 hmem2 hcc] at hev
        exact absurd hev Bool.false_ne_true
      · simp [hcc]
  rw [hval rule hrule, hmc]

/-- Witness for C6: with one record matched by neither rule, both rule
categories are present with counter values given by `matchCount`, any
never-matching category reads zero (checked concretely for `A`), and the two
lists partition the single record. -/
theorem claim_C6_witness :
    ((∀ rule ∈ [(⟨"A", RCond.map [("x", JSVal.num ⟨1, 1⟩)], none⟩ : CatRule),
                ⟨"B", RCond.map [("x", JSVal.num ⟨2, 1⟩)], none⟩],
       lookupCat (categorizeDataCore [[("x", JSVal.num ⟨9, 1⟩)]]
           [⟨"A", RCond.map [("x", JSVal.num ⟨1, 1⟩)], none⟩,
            ⟨"B", RCond.map [("x", JSVal.num ⟨2, 1⟩)], none⟩]).categories rule.category
         = some (matchCount
             [⟨"A", RCond.map [("x", JSVal.num ⟨1, 1⟩)], none⟩,
              ⟨"B", RCond.map [("x", JSVal.num ⟨2, 1⟩)], none⟩]
             rule.category [[("x", JSVal.num ⟨9, 1⟩)]])) ∧
     (∀ rule ∈ [(⟨"A", RCond.map [("x", JSVal.num ⟨1, 1⟩)], none⟩ : CatRule),
                ⟨"B", RCond.map [("x", JSVal.num ⟨2, 1⟩)], none⟩],
       (∀ item ∈ [[("x", JSVal.num ⟨9, 1⟩)]],
         ∀ rule2 ∈ [(⟨"A", RCond.map [("x", JSVal.num ⟨1, 1⟩)], none⟩ : CatRule),
                    ⟨"B", RCond.map [("x", JSVal.num ⟨2, 1⟩)], none⟩],
           rule2.category = rule.category →
           evaluateRule item rule2.condition = false) →
       lookupCat (categorizeDataCore [[("x", JSVal.num ⟨9, 1⟩)]]
           [⟨"A", RCond.map [("x", JSVal.num ⟨1, 1⟩)], none⟩,
            ⟨"B", RCond.map [("x", JSVal.num ⟨2, 1⟩)], none⟩]).categories rule.category
         = some 0) ∧
     (categorizeDataCore [[("x", JSVal.num ⟨9, 1⟩)]]
         [⟨"A", RCond.map [("x", JSVal.num ⟨1, 1⟩)], none⟩,
          ⟨"B", RCond.map [("x", JSVal.num ⟨2, 1⟩)], none⟩]).categorized.length +
       (categorizeDataCore [[("x", JSVal.num ⟨9, 1⟩)]]
         [⟨"A", RCond.map [("x", JSVal.num ⟨1, 1⟩)], none⟩,
          ⟨"B", RCond.map [("x", JSVal.num ⟨2, 1⟩)], none⟩]).uncategorized.length = 1) ∧
    lookupCat (categorizeDataCore [[("x", JSVal.num ⟨9, 1⟩)]]
        [⟨"A", RCond.map [("x", JSVal.num ⟨1, 1⟩)], none⟩,
         ⟨"B", RCond.map [("x", JSVal.num ⟨2, 1⟩)], none⟩]).categories "A" = some 0 :=
  ⟨claim_C6 [[("x", JSVal.num ⟨9, 1⟩)]]
    [⟨"A", RCond.map [("x", JSVal.num ⟨1, 1⟩)], none⟩,
     ⟨"B", RCond.map [("x", JSVal.num ⟨2, 1⟩)], none⟩]
    (by decide) _ rfl, by decide⟩

/-! Lemmas for first-match-wins. -/

theorem find?_eq_of_first {α : Type} (p : α → Bool) :
    ∀ (l : List α) (i : Nat) (hi : i < l.length),
      p (l.get ⟨i, hi⟩) = true →
      (∀ j (hj : j < i), p (l.get ⟨j, Nat.lt_trans hj hi⟩) = false) →
      l.find? p = some (l.get ⟨i, hi⟩) := by
  intro l
  induction l with
  | nil => intro i hi; exact absurd hi (Nat.not_lt_zero i)
  | cons a t ih =>
    intro i hi hp hlt
    cases i with
    | zero =>
      simp only [List.get] at hp
      simp [List.find?_cons, hp]
    | succ i2 =>
      have ha : p a = false := by
        have := hlt 0 (Nat.succ_pos i2)
        simpa using this
      have hi2 : i2 < t.length := Nat.lt_of_succ_lt_succ hi
      have hp2 : p (t.get ⟨i2, hi2⟩) = true := by simpa using hp
      have hlt2 : ∀ j (hj : j < i2), p (t.get ⟨j, Nat.lt_trans hj hi2⟩) = false := by
        intro j hj
        have := hlt (j + 1) (Nat.succ_lt_succ hj)
        simpa using this
      have := ih i2 hi2 hp2 hlt2
      simp [List.find?_cons, ha, this]

theorem jsGet_overwrite (r : Record) (k : String) (v : JSVal)
    (h : r.any (fun p => p.1 == k) = true) :
    jsGet (r.map fun p => if p.1 == k then (p.1, v) else p) k = v := by
  induction r with
  | nil => simp at h
  | cons p t ih =>
    simp only [List.map_cons]
    by_cases hp : p.1 = k
    · have hhead : (if (p.1 == k) = true then (p.1, v) else p) = (p.1, v) := by simp [hp]
      rw [hhead]
      simp [jsGet, hp]
    · have hhead : (if (p.1 == k) = true then (p.1, v) else p) = p := by simp [hp]
      rw [hhead]
      have h2 : t.any (fun p => p.1 == k) = true := by
        simp only [List.any_cons, Bool.or_eq_true] at h
        rcases h with h1 | h1
        · exact absurd (by simpa using h1) hp
        · exact h1
      simp [jsGet, hp]
      simpa using ih h2

theorem jsGet_append_single (r : Record) (k : String) (v : JSVal)
    (h : r.any (fun p => p.1 == k) = false) :
    jsGet (r ++ [(k, v)]) k = v := by
  induction r with
  | nil => simp [jsGet]
  | cons p t ih =>
    simp only [List.any_cons, Bool.or_eq_false_iff, beq_eq_false_iff_ne, ne_eq] at h
    simp [jsGet, h.1, ih (by simpa using h.2)]

/-- Setting a property makes it readable back (`obj[k] = v; obj[k] === v`). -/
theorem jsGet_setField_self (r : Record) (k : String) (v : JSVal) :
    jsGet (setField r k v) k = v := by
  unfold setField
  cases ha : r.any (fun p => p.1 == k) with
  | true =>
    rw [if_pos rfl]
    exact jsGet_overwrite r k v ha
  | false =>
    rw [if_neg Bool.false_ne_true]
    exact jsGet_append_single r k v ha

theorem jsGet_map_ne (r : Record) (k k' : String) (v : JSVal) (h : k' ≠ k) :
    jsGet (r.map fun p => if p.1 == k then (p.1, v) else p) k' = jsGet r k' := by
  induction r with
  | nil => rfl
  | cons p t ih =>
    simp only [List.map_cons]
    by_cases hp : p.1 = k
    · have hhead : (if (p.1 == k) = true then (p.1, v) else p) = (p.1, v) := by simp [hp]
      rw [hhead]
      have hpk : ¬p.1 = k' := fun hh => h (hh.symm.trans hp)
      simp [jsGet, hpk]
      simpa using ih
    · have hhead : (if (p.1 == k) = true then (p.1, v) else p) = p := by simp [hp]
      rw [hhead]
      by_cases hpc : p.1 = k'
      · simp [jsGet, hpc]
      · simp [jsGet, hpc]
        simpa using ih

theorem jsGet_append_single_ne (r : Record) (k k' : String) (v : JSVal) (h : k' ≠ k) :
    jsGet (r ++ [(k, v)]) k' = jsGet r k' := by
  induction r with
  | nil => simp [jsGet, Ne.symm h]
  | cons p t ih =>
    by_cases hp : p.1 = k' <;> simp [jsGet, hp, ih]

/-- Setting one property leaves every other property unchanged. -/
theorem jsGet_setField_ne (r : Record) (k k' : String) (v : JSVal) (h : k' ≠ k) :
    jsGet (setField r k v) k' = jsGet r k' := by
  unfold setField
  cases ha : r.any (fun p => p.1 == k) with
  | true =>
    rw [if_pos rfl]
    exact jsGet_map_ne r k k' v h
  | false =>
    rw [if_neg Bool.false_ne_true]
    exact jsGet_append_single_ne r k k' v h

/-- C5: categorization is first-match-wins.  If rule `i` matches a record,
rule `j > i` also matches, and no rule before `i` matches, then the scan
stops at rule `i`: the record is tagged with rule `i`'s category (readable at
`_category`), rule `i`'s counter is incremented to one, and rule `j`'s
counter (when its category name differs) stays at its seeded zero. -/
theorem claim_C5 (item : Record) (rules : List CatRule) (i j : Nat)
    (hi : i < rules.length) (hj : j < rules.length) (hij : i < j)
    (hmi : evaluateRule item (rules.get ⟨i, hi⟩).condition = true)
    (hmj : evaluateRule item (rules.get ⟨j, hj⟩).condition = true)
    (hfirst : ∀ k (hk : k < i),
      evaluateRule item (rules.get ⟨k, Nat.lt_trans hk hi⟩).condition = false) :
    (categorizeDataCore [item] rules).categorized
        = [tagMatched item 0 (rules.get ⟨i, hi⟩)] ∧
    jsGet (tagMatched item 0 (rules.get ⟨i, hi⟩)) "_category"
        = .str (rules.get ⟨i, hi⟩).category ∧
    lookupCat (categorizeDataCore [item] rules).categories (rules.get ⟨i, hi⟩).category
        = some 1 ∧
    ((rules.get ⟨j, hj⟩).category ≠ (rules.get ⟨i, hi⟩).category →
      lookupCat (categorizeDataCore [item] rules).categories (rules.get ⟨j, hj⟩).category
        = some 0) := by
  have hfind : rules.find? (fun rule => evaluateRule item rule.condition)
      = some (rules.get ⟨i, hi⟩) :=
    find?_eq_of_first _ rules i hi hmi hfirst
  have hgo : catGo rules [item] 0 (seedCats rules)
      = ([tagMatched item 0 (rules.get ⟨i, hi⟩)], [],
          bumpCat (seedCats rules) (rules.get ⟨i, hi⟩).category) := by
    simp [catGo, hfind]
  refine ⟨?_, ?_, ?_, ?_⟩
  · unfold categorizeDataCore
    rw [hgo]
  · unfold tagMatched
    rw [jsGet_setField_ne _ _ _ _ (by decide)]
    exact jsGet_setField_self _ _ _
  · unfold categorizeDataCore
    rw [hgo]
    simp only
    rw [lookupCat_bumpCat,
      lookupCat_seedCats_of_mem rules (rules.get ⟨i, hi⟩).category
        (List.mem_map_of_mem _ (List.get_mem rules i hi))]
    simp
  · intro hne
    unfold categorizeDataCore
    rw [hgo]
    simp only
    rw [lookupCat_bumpCat,
      lookupCat_seedCats_of_mem rules (rules.get ⟨j, hj⟩).category
        (List.mem_map_of_mem _ (List.get_mem rules j hj))]
    simp
    exact hne

/-- Witness for C5: both rules match the record `{x: 5}`; the record is
categorized as `A` (the earlier rule), `A`'s counter is one and `B`'s stays
zero. -/
theorem claim_C5_witness :
    (categorizeDataCore [[("x", JSVal.num ⟨5, 1⟩)]]
      [⟨"A", RCond.map [("x", JSVal.num ⟨5, 1⟩)], none⟩,
       ⟨"B", RCond.map [("x", JSVal.str ">0")], none⟩]).categorized
      = [tagMatched [("x", JSVal.num ⟨5, 1⟩)] 0
          ⟨"A", RCond.map [("x", JSVal.num ⟨5, 1⟩)], none⟩] ∧
    jsGet (tagMatched [("x", JSVal.num ⟨5, 1⟩)] 0
          ⟨"A", RCond.map [("x", JSVal.num ⟨5, 1⟩)], none⟩) "_category" = .str "A" ∧
    lookupCat (categorizeDataCore [[("x", JSVal.num ⟨5, 1⟩)]]
      [⟨"A", RCond.map [("x", JSVal.num ⟨5, 1⟩)], none⟩,
       ⟨"B", RCond.map [("x", JSVal.str ">0")], none⟩]).categories "A" = some 1 ∧
    ("B" ≠ "A" →
      lookupCat (categorizeDataCore [[("x", JSVal.num ⟨5, 1⟩)]]
        [⟨"A", RCond.map [("x", JSVal.num ⟨5, 1⟩)], none⟩,
         ⟨"B", RCond.map [("x", JSVal.str ">0")], none⟩]).categories "B" = some 0) :=
  claim_C5 [("x", JSVal.num ⟨5, 1⟩)]
    [⟨"A", RCond.map [("x", JSVal.num ⟨5, 1⟩)], none⟩,
     ⟨"B", RCond.map [("x", JSVal.str ">0")], none⟩]
    0 1 (by decide) (by decide) (by decide) (by decide) (by decide)
    (fun k hk => absurd hk (Nat.not_lt_zero k))

/-! Lemmas for the aggregation semantics. -/

theorem jsSum_nums_aux (qs : List Q) :
    ∀ a : Q, (qs.map JSVal.num).foldl jsAdd (.num a) = .num (qs.foldl qadd a) := by
  induction qs with
  | nil => intro a; rfl
  | cons q t ih =>
    intro a
    simp only [List.map_cons, List.foldl_cons]
    exact ih (qadd a q)

theorem jsSum_nums (qs : List Q) :
    jsSum (qs.map JSVal.num) = .num (qs.foldl qadd ⟨0, 1⟩) :=
  jsSum_nums_aux qs ⟨0, 1⟩

theorem toNumList_nums (qs : List Q) : toNumList (qs.map JSVal.num) = some qs := by
  induction qs with
  | nil => rfl
  | cons q t ih =>
    simp only [List.map_cons, toNumList, JSVal.toNumber?, ih]

theorem jsDiv_num_nat (a : Q) (k : Nat) (hk : k ≠ 0) :
    jsDiv (.num a) (.num (qofNat k)) = .num (qdiv a (qofNat k)) := by
  simp only [jsDiv, JSVal.toNumber?, qofNat]
  rw [if_neg (by exact_mod_cast hk)]

/-- Specification-side description of `Math.min` over the list of non-null
numeric values, `null` when there are none. -/
def qListMin : List Q → JSVal
  | [] => .null
  | q :: t => .num (t.foldl qmin q)

def qListMax : List Q → JSVal
  | [] => .null
  | q :: t => .num (t.foldl qmax q)

/-- C7: per-group aggregation semantics.  For any group `(k, gd)` produced by
`aggregateData`, with the non-null values of field `f` being the numbers
`qs`: `sum` is the arithmetic total (zero for an empty list), `avg` is the
total over the non-null count (zero when there are none), `min`/`max` are
`null` when there are no non-null values, `count` is the number of non-null
values (distinct from the group-size `count` field), an unknown operation
emits no field and raises no error, appending a record whose field is null or
undefined changes nothing, and the group's output record is a member of the
`aggregateData` result. -/
theorem claim_C7 (data : List Record) (groupBy f : String) (k : String)
    (gd : List Record) (hmem : (k, gd) ∈ jsGroups data groupBy) (qs : List Q)
    (hq : nonNullVals gd f = qs.map JSVal.num) :
    aggApply gd ⟨f, "sum"⟩ = some (f ++ "_sum", .num (qs.foldl qadd ⟨0, 1⟩)) ∧
    aggApply gd ⟨f, "avg"⟩ = some (f ++ "_avg",
      if 0 < qs.length then .num (qdiv (qs.foldl qadd ⟨0, 1⟩) (qofNat qs.length))
      else .num ⟨0, 1⟩) ∧
    aggApply gd ⟨f, "min"⟩ = some (f ++ "_min", qListMin qs) ∧
    aggApply gd ⟨f, "max"⟩ = some (f ++ "_max", qListMax qs) ∧
    aggApply gd ⟨f, "count"⟩ = some (f ++ "_count", .num (qofNat qs.length)) ∧
    (∀ op : String, op ∉ ["sum", "avg", "min", "max", "count"] →
      aggApply gd ⟨f, op⟩ = none) ∧
    (∀ r : Record, jsGet r f = .null ∨ jsGet r f = .undef →
      ∀ op : String, aggApply (gd ++ [r]) ⟨f, op⟩ = aggApply gd ⟨f, op⟩) ∧
    (∀ aggs : List AggSpec,
      groupRecord groupBy aggs (k, gd) ∈ aggregateDataCore data groupBy aggs) := by
  refine ⟨?_, ?_, ?_, ?_, ?_, ?_, ?_, ?_⟩
  · simp [aggApply, hq, jsSum_nums]
  · rcases qs with _ | ⟨q, t⟩
    · simp [aggApply, hq]
    · simp only [aggApply, hq]
      simp
      rw [← List.map_cons, jsSum_nums, jsDiv_num_nat _ _ (Nat.succ_ne_zero t.length)]
      rfl
  · rcases qs with _ | ⟨q, t⟩
    · simp [aggApply, hq, qListMin]
    · simp [aggApply, hq, qListMin, jsMathMin]
      rw [← List.map_cons, toNumList_nums]
  · rcases qs with _ | ⟨q, t⟩
    · simp [aggApply, hq, qListMax]
    · simp [aggApply, hq, qListMax, jsMathMax]
      rw [← List.map_cons, toNumList_nums]
  · simp [aggApply, hq]
  · intro op hop
    simp only [List.mem_cons, List.mem_singleton, not_or] at hop
    obtain ⟨h1, h2, h3, h4, h5⟩ := hop
    simp only [aggApply]
    rw [if_neg h1, if_neg h2, if_neg h3, if_neg h4, if_neg (by simpa using h5)]
  · intro r hr op
    have hnn : nonNullVals (gd ++ [r]) f = nonNullVals gd f := by
      unfold nonNullVals
      rw [List.map_append, List.filter_append]
      rcases hr with hr | hr <;> simp [hr]
    simp only [aggApply, hnn]
  · intro aggs
    exact List.mem_map_of_mem _ hmem

/-- Witness for C7 at the spec's aggregation scenario: the `Eng` group of
`[{dept:'Eng',salary:100},{dept:'Eng',salary:200},{dept:'Sales',salary:50}]`
has salary sum `300`, and its output record's `salary_avg` is `150`
(`300/2`). -/
theorem claim_C7_witness :
    aggApply [[("dept", JSVal.str "Eng"), ("salary", JSVal.num ⟨100, 1⟩)],
              [("dept", JSVal.str "Eng"), ("salary", JSVal.num ⟨200, 1⟩)]]
        ⟨"salary", "sum"⟩
      = some ("salary" ++ "_sum", .num ([⟨100, 1⟩, ⟨200, 1⟩].foldl qadd ⟨0, 1⟩)) ∧
    jsGet (groupRecord "dept" [⟨"salary", "avg"⟩]
        ("Eng", [[("dept", JSVal.str "Eng"), ("salary", JSVal.num ⟨100, 1⟩)],
                 [("dept", JSVal.str "Eng"), ("salary", JSVal.num ⟨200, 1⟩)]]))
      "salary_avg" = .num ⟨300, 2⟩ :=
  ⟨(claim_C7
      [[("dept", JSVal.str "Eng"), ("salary", JSVal.num ⟨100, 1⟩)],
       [("dept", JSVal.str "Eng"), ("salary", JSVal.num ⟨200, 1⟩)],
       [("dept", JSVal.str "Sales"), ("salary", JSVal.num ⟨50, 1⟩)]]
      "dept" "salary" "Eng"
      [[("dept", JSVal.str "Eng"), ("salary", JSVal.num ⟨100, 1⟩)],
       [("dept", JSVal.str "Eng"), ("salary", JSVal.num ⟨200, 1⟩)]]
      (by decide) [⟨100, 1⟩, ⟨200, 1⟩] (by decide)).1,
   by decide⟩

/-- C8 counterexample: with numeric group keys `10` then `2`, the groups
object enumerates the canonical array-index keys in ascending numeric order,
so `aggregateData` emits the group `"2"` before the group `"10"` even though
`10` appeared first in the input. -/
theorem claim_C8_counterexample :
    (aggregateDataCore [[("g", JSVal.num ⟨10, 1⟩)], [("g", JSVal.num ⟨2, 1⟩)]] "g" []).map
        (fun r => jsGet r "g") = [.str "2", .str "10"] ∧
    (groupsIns [[("g", JSVal.num ⟨10, 1⟩)], [("g", JSVal.num ⟨2, 1⟩)]] "g").map (·.1)
        = ["10", "2"] := by
  decide

/-- C8 (amended): `aggregateData` enumerates groups in order of first
appearance of each stringified key, provided no key is a canonical
array-index string; keys that are array indices (such as stringified
non-negative integers below `2^32 - 1`) are instead enumerated first in
ascending numeric order, following JS object key ordering. -/
theorem claim_C8 (data : List Record) (groupBy : String) (aggs : List AggSpec)
    (h : ∀ p ∈ groupsIns data groupBy, isArrayIndexKey p.1 = false) :
    aggregateDataCore data groupBy aggs
      = (groupsIns data groupBy).map (groupRecord groupBy aggs) := by
  unfold aggregateDataCore jsGroups entriesOrder
  have h1 : (groupsIns data groupBy).filter (fun p => isArrayIndexKey p.1) = [] := by
    rw [List.filter_eq_nil_iff]
    intro p hp
    simp [h p hp]
  have h2 : (groupsIns data groupBy).filter (fun p => !isArrayIndexKey p.1)
      = groupsIns data groupBy := by
    rw [List.filter_eq_self]
    intro p hp
    simp [h p hp]
  rw [h1, h2]
  rfl

/-- Witness for C8 (amended) at string keys: `Eng` and `Sales` groups emit in
first-appearance order. -/
theorem claim_C8_witness :
    aggregateDataCore [[("dept", JSVal.str "Eng")], [("dept", JSVal.str "Sales")]] "dept" []
      = (groupsIns [[("dept", JSVal.str "Eng")], [("dept", JSVal.str "Sales")]] "dept").map
          (groupRecord "dept" []) :=
  claim_C8 [[("dept", JSVal.str "Eng")], [("dept", JSVal.str "Sales")]] "dept" []
    (by decide)

def keyAt (kf : Option (List String)) (data : List Record) (i : Nat) : String :=
  dupKey kf (data.getD i [])

/-- Is index `i` the first occurrence of its key in `data`? -/
def isFirstOcc (kf : Option (List String)) (data : List Record) (i : Nat) : Bool :=
  (List.range i).all fun j => !(keyAt kf data j == keyAt kf data i)

/-- First index below `bound` whose key is `k`. -/
def firstIdxBelow (kf : Option (List String)) (data : List Record) (bound : Nat)
    (k : String) : Option Nat :=
  (List.range bound).find? fun j => keyAt kf data j == k

def firstIdxOfKey (kf : Option (List String)) (data : List Record) (k : String) :
    Option Nat :=
  firstIdxBelow kf data data.length k

/-- The records at first-occurrence indices from `i` on, tagged as `unique`
entries are. -/
def specUniqueFrom (kf : Option (List String)) (data : List Record) (i : Nat) :
    List Record :=
  ((List.range' i (data.length - i)).filter fun j => isFirstOcc kf data j).map
    fun j => tagIndexed (data.getD j []) j

/-- The records at repeated-key indices from `i` on, tagged with the input
index of the first occurrence of their key. -/
def specDupsFrom (kf : Option (List String)) (data : List Record) (i : Nat) :
    List Record :=
  ((List.range' i (data.length - i)).filter fun j => !isFirstOcc kf data j).map
    fun j => tagDup (data.getD j []) j ((firstIdxOfKey kf data (keyAt kf data j)).getD 0)

theorem firstIdxBelow_succ (kf : Option (List String)) (data : List Record) (i : Nat)
    (k : String) :
    firstIdxBelow kf data (i+1) k =
      (firstIdxBelow kf data i k).or
        (if keyAt kf data i == k then some i else none) := by
  unfold firstIdxBelow
  rw [show List.range (i+1) = List.range i ++ [i] from by simp [List.range_succ]]
  rw [List.find?_append]
  cases hc : keyAt kf data i == k <;> simp [List.find?, hc]

theorem isFirstOcc_iff_none (kf : Option (List String)) (data : List Record) (i : Nat) :
    isFirstOcc kf data i = true ↔
      firstIdxBelow kf data i (keyAt kf data i) = none := by
  unfold isFirstOcc firstIdxBelow
  rw [List.all_eq_true, List.find?_eq_none]
  constructor
  · intro h j hj
    have := h j hj
    simpa using this
  · intro h j hj
    have := h j hj
    simpa using this

theorem firstIdxBelow_mono (kf : Option (List String)) (data : List Record) (k : String)
    (b b' : Nat) (hle : b ≤ b') {j : Nat}
    (h : firstIdxBelow kf data b k = some j) :
    firstIdxBelow kf data b' k = some j := by
  induction b' with
  | zero =>
    have hb : b = 0 := Nat.le_zero.mp hle
    subst hb
    exact h
  | succ b2 ih =>
    rcases Nat.lt_or_ge b (b2+1) with hlt | hge
    · have hb : b ≤ b2 := Nat.lt_succ_iff.mp hlt
      rw [firstIdxBelow_succ, ih hb]
      rfl
    · have hb : b = b2 + 1 := Nat.le_antisymm hle hge
      subst hb
      exact h

theorem lookupSeen_append (m m2 : List (String × Nat)) (k : String) :
    lookupSeen (m ++ m2) k =
      match lookupSeen m k with
      | some v => some v
      | none => lookupSeen m2 k := by
  induction m with
  | nil => rfl
  | cons p t ih =>
    by_cases hpc : p.1 = k <;> simp [lookupSeen, hpc, ih]

theorem findDupGo_lengths (kf : Option (List String)) :
    ∀ (l : List Record) (i : Nat) (seen : List (String × Nat)),
      (findDupGo kf l i seen).1.length + (findDupGo kf l i seen).2.length = l.length := by
  intro l
  induction l with
  | nil => intro i seen; rfl
  | cons item rest ih =>
    intro i seen
    cases h : lookupSeen seen (dupKey kf item) with
    | some fi =>
      have := ih (i+1) seen
      simp [findDupGo, h]
      omega
    | none =>
      have := ih (i+1) (seen ++ [(dupKey kf item, i)])
      simp [findDupGo, h]
      omega

theorem specUniqueFrom_step (kf : Option (List String)) (data : List Record) (i : Nat)
    (hi : i < data.length) :
    specUniqueFrom kf data i =
      if isFirstOcc kf data i
      then tagIndexed (data.getD i []) i :: specUniqueFrom kf data (i+1)
      else specUniqueFrom kf data (i+1) := by
  unfold specUniqueFrom
  have hsucc : data.length - i = (data.length - (i+1)) + 1 := by omega
  rw [hsucc]
  rw [show List.range' i ((data.length - (i+1)) + 1)
      = i :: List.range' (i+1) (data.length - (i+1)) from rfl]
  rw [List.filter_cons]
  by_cases ha : isFirstOcc kf data i <;> simp [ha]

theorem specDupsFrom_step (kf : Option (List String)) (data : List Record) (i : Nat)
    (hi : i < data.length) :
    specDupsFrom kf data i =
      if isFirstOcc kf data i
      then specDupsFrom kf data (i+1)
      else tagDup (data.getD i []) i ((firstIdxOfKey kf data (keyAt kf data i)).getD 0)
        :: specDupsFrom kf data (i+1) := by
  unfold specDupsFrom
  have hsucc : data.length - i = (data.length - (i+1)) + 1 := by omega
  rw [hsucc]
  rw [show List.range' i ((data.length - (i+1)) + 1)
      = i :: List.range' (i+1) (data.length - (i+1)) from rfl]
  rw [List.filter_cons]
  by_cases ha : isFirstOcc kf data i <;> simp [ha]

/-- The duplicate scan computes exactly the first-occurrence partition: when
`seen` holds the first index of every key occurring before position `i`, the
remaining scan splits positions `i, i+1, …` into duplicates (tagged with the
first occurrence of their key) and unique records. -/
theorem findDupGo_eq (kf : Option (List String)) (data : List Record) :
    ∀ (l : List Record) (i : Nat) (seen : List (String × Nat)),
      data.drop i = l →
      (∀ k, lookupSeen seen k = firstIdxBelow kf data i k) →
      findDupGo kf l i seen = (specDupsFrom kf data i, specUniqueFrom kf data i) := by
  intro l
  induction l with
  | nil =>
    intro i seen hdrop hseen
    have hh := congrArg List.length hdrop
    rw [List.length_drop] at hh
    simp at hh
    have h0 : data.length - i = 0 := by omega
    simp [findDupGo, specDupsFrom, specUniqueFrom, h0]
  | cons item rest ih =>
    intro i seen hdrop hseen
    have hh := congrArg List.length hdrop
    rw [List.length_drop] at hh
    simp at hh
    have hi : i < data.length := by omega
    have hgetq : data[i]? = some item := by
      rw [← List.head?_drop, hdrop]
      rfl
    have hget : data.getD i [] = item := by
      rw [List.getD_eq_getElem?_getD, hgetq]
      rfl
    have hdrop1 : data.drop (i+1) = rest := by
      rw [← List.tail_drop, hdrop]
      rfl
    have hkeyAt : keyAt kf data i = dupKey kf item := by
      rw [keyAt, hget]
    cases hfound : lookupSeen seen (dupKey kf item) with
    | some fi =>
      have hfb : firstIdxBelow kf data i (dupKey kf item) = some fi := by
        rw [← hseen, hfound]
      have ha : isFirstOcc kf data i = false := by
        cases hIf : isFirstOcc kf data i with
        | false => rfl
        | true =>
          have hnone := (isFirstOcc_iff_none kf data i).mp hIf
          rw [hkeyAt, hfb] at hnone
          exact absurd hnone (by simp)
      have hfo : firstIdxOfKey kf data (dupKey kf item) = some fi :=
        firstIdxBelow_mono kf data (dupKey kf item) i data.length (Nat.le_of_lt hi) hfb
      have hinv : ∀ k, lookupSeen seen k = firstIdxBelow kf data (i+1) k := by
        intro k
        rw [hseen k, firstIdxBelow_succ]
        cases hprev : firstIdxBelow kf data i k with
        | some j => rfl
        | none =>
          by_cases hkk : dupKey kf item = k
          · subst hkk
            rw [hfb] at hprev
            exact absurd hprev (by simp)
          · rw [hkeyAt]
            simp [hkk]
      rw [show findDupGo kf (item :: rest) i seen
          = (tagDup item i fi :: (findDupGo kf rest (i+1) seen).1,
             (findDupGo kf rest (i+1) seen).2) from by simp [findDupGo, hfound]]
      rw [ih (i+1) seen hdrop1 hinv]
      rw [specDupsFrom_step kf data i hi, specUniqueFrom_step kf data i hi]
      simp [ha, hget, hkeyAt, hfo, hgetq]
    | none =>
      have hfb : firstIdxBelow kf data i (dupKey kf item) = none := by
        rw [← hseen, hfound]
      have ha : isFirstOcc kf data i = true :=
        (isFirstOcc_iff_none kf data i).mpr (by rw [hkeyAt]; exact hfb)
      have hinv : ∀ k, lookupSeen (seen ++ [(dupKey kf item, i)]) k
          = firstIdxBelow kf data (i+1) k := by
        intro k
        rw [lookupSeen_append, hseen k, firstIdxBelow_succ, hkeyAt]
        cases hprev : firstIdxBelow kf data i k with
        | some j => rfl
        | none =>
          by_cases hkk : dupKey kf item = k
          · simp [lookupSeen, hkk]
          · simp [lookupSeen, hkk]
      rw [show findDupGo kf (item :: rest) i seen
          = ((findDupGo kf rest (i+1) (seen ++ [(dupKey kf item, i)])).1,
             tagIndexed item i
               :: (findDupGo kf rest (i+1) (seen ++ [(dupKey kf item, i)])).2)
          from by simp [findDupGo, hfound]]
      rw [ih (i+1) (seen ++ [(dupKey kf item, i)]) hdrop1 hinv]
      rw [specDupsFrom_step kf data i hi, specUniqueFrom_step kf data i hi]
      simp [ha, hget, hgetq]

/-- C4: `findDuplicates` partitions its input.  The unique list holds exactly
the first record bearing each key in input order, the duplicates list holds
every later record with an already-seen key tagged with `_duplicateOf` equal
to the input index of that key's first occurrence, the two lists' lengths sum
to the input length, and `duplicateRate` is `duplicates/total*100` formatted
to two decimals with a `%` suffix. -/
theorem claim_C4 (data : List Record) (kf : Option (List String)) (h : data ≠ [])
    (r : DupResult) (hr : findDuplicates data kf = .ok r) :
    r.unique.length + r.duplicates.length = data.length ∧
    r.unique = specUniqueFrom kf data 0 ∧
    r.duplicates = specDupsFrom kf data 0 ∧
    r.duplicateRate
      = toFixed2 (qmul (qdiv (qofNat r.duplicates.length) (qofNat data.length)) ⟨100, 1⟩)
        ++ "%" := by
  have he : data.isEmpty = false := by
    cases data with
    | nil => exact absurd rfl h
    | cons a t => rfl
  have hcore : r = findDuplicatesCore data kf := by
    simp [findDuplicates, validateNonEmpty, he, Bind.bind, Except.bind, pure, Except.pure] at hr
    exact hr.symm
  subst hcore
  have hgo : findDupGo kf data 0 [] = (specDupsFrom kf data 0, specUniqueFrom kf data 0) :=
    findDupGo_eq kf data data 0 [] rfl (fun k => rfl)
  refine ⟨?_, ?_, ?_, ?_⟩
  · have hl := findDupGo_lengths kf data 0 []
    show (findDupGo kf data 0 []).2.length + (findDupGo kf data 0 []).1.length = data.length
    omega
  · show (findDupGo kf data 0 []).2 = specUniqueFrom kf data 0
    rw [hgo]
  · show (findDupGo kf data 0 []).1 = specDupsFrom kf data 0
    rw [hgo]
  · rfl

/-- Witness for C4 at the spec's scenario
`findDuplicates([{name:'A'},{name:'B'},{name:'A'}], ['name'])`: one
duplicate, two unique records, rate `"33.33%"`, and the partition equalities
from the claim. -/
theorem claim_C4_witness :
    ((findDuplicatesCore [[("name", JSVal.str "A")], [("name", JSVal.str "B")],
        [("name", JSVal.str "A")]] (some ["name"])).duplicateCount = 1 ∧
     (findDuplicatesCore [[("name", JSVal.str "A")], [("name", JSVal.str "B")],
        [("name", JSVal.str "A")]] (some ["name"])).uniqueCount = 2 ∧
     (findDuplicatesCore [[("name", JSVal.str "A")], [("name", JSVal.str "B")],
        [("name", JSVal.str "A")]] (some ["name"])).duplicateRate = "33.33%") ∧
    ((findDuplicatesCore [[("name", JSVal.str "A")], [("name", JSVal.str "B")],
        [("name", JSVal.str "A")]] (some ["name"])).unique.length +
      (findDuplicatesCore [[("name", JSVal.str "A")], [("name", JSVal.str "B")],
        [("name", JSVal.str "A")]] (some ["name"])).duplicates.length = 3 ∧
     (findDuplicatesCore [[("name", JSVal.str "A")], [("name", JSVal.str "B")],
        [("name", JSVal.str "A")]] (some ["name"])).unique
        = specUniqueFrom (some ["name"]) [[("name", JSVal.str "A")],
            [("name", JSVal.str "B")], [("name", JSVal.str "A")]] 0 ∧
     (findDuplicatesCore [[("name", JSVal.str "A")], [("name", JSVal.str "B")],
        [("name", JSVal.str "A")]] (some ["name"])).duplicates
        = specDupsFrom (some ["name"]) [[("name", JSVal.str "A")],
            [("name", JSVal.str "B")], [("name", JSVal.str "A")]] 0 ∧
     (findDuplicatesCore [[("name", JSVal.str "A")], [("name", JSVal.str "B")],
        [("name", JSVal.str "A")]] (some ["name"])).duplicateRate
        = toFixed2 (qmul (qdiv (qofNat (findDuplicatesCore [[("name", JSVal.str "A")],
            [("name", JSVal.str "B")], [("name", JSVal.str "A")]]
            (some ["name"])).duplicates.length) (qofNat 3)) ⟨100, 1⟩) ++ "%") :=
  ⟨by decide,
   claim_C4 [[("name", JSVal.str "A")], [("name", JSVal.str "B")], [("name", JSVal.str "A")]]
     (some ["name"]) (by decide) _ rfl⟩
